import Mathlib

/-!
Verification of the outline scroll-synchronization subsystem of a
browser-based PDF viewing shell (`src/main.ts`).

The embedding covers:
* the scroll-sync resolver: the `updateviewarea` handler's scan over
  `outlineDestMap` that selects the best-matching outline entry for the
  current scroll location (main.ts lines 150-193);
* the active-highlight state machine: the highlight update in that handler
  plus the optimistic highlight performed by the outline click listener
  (main.ts lines 181-193 and 293-307);
* the outline index builder `renderOutlineLevel` together with the
  destination resolution and fit-mode offset extraction it performs
  (main.ts lines 228-334), parameterised by an abstract document handle
  for `getDestination` / `getPageIndex`;
* `fetchAndRenderOutline` (main.ts lines 201-226), which builds the view
  state and the `outlineDestMap` index.

Numbers: page indices are 0-based naturals (`getPageIndex` results); the
vertical coordinates (`top`, `currentY`) are modelled as integers, since
the handler only ever compares them.
-/

namespace AcaReader

/-- One record of `outlineDestMap`: the rendered element (identified by a
numeric id standing for the `li` DOM node) together with its resolved
destination `{ pageIndex, top }`; `top = none` models a stored `null`. -/
structure Entry where
  elem : Nat
  pageIndex : Nat
  top : Option Int
deriving DecidableEq

/-- The scroll location computed by the `updateviewarea` handler: the
current (0-based) page index and `currentY`, the scroll offset within that
page in destination coordinates. -/
structure ScrollLoc where
  pageIndex : Nat
  y : Int
deriving DecidableEq

/-- The `isAboveOrAt` test of the handler (main.ts lines 157-163): the
entry's page is strictly before the current page, or it is the current
page and the entry's `top` is non-null and at least `currentY`. -/
def isAboveOrAt (loc : ScrollLoc) (e : Entry) : Bool :=
  decide (e.pageIndex < loc.pageIndex) ||
    (e.pageIndex == loc.pageIndex &&
      (match e.top with
       | some t => decide (loc.y ≤ t)
       | none => false))

/-- The accumulator of the handler's scan: `bestMatchElement`,
`bestMatchPage` (initially `-1`) and `bestMatchTop` (initially
`-Infinity`, modelled by `none`). -/
structure Acc where
  best : Option Entry
  page : Int
  top : Option Int
deriving DecidableEq

/-- Strict comparison `(a ?? -Infinity) > (b ?? -Infinity)` used at
main.ts line 172, with `none` standing for `-Infinity`. -/
def topGT : Option Int → Option Int → Bool
  | some a, some b => decide (b < a)
  | some _, none => true
  | none, _ => false

/-- Non-strict counterpart of `topGT`, used to state the ordering facts. -/
def topLE : Option Int → Option Int → Bool
  | none, _ => true
  | some _, none => false
  | some a, some b => decide (a ≤ b)

/-- One iteration of the `outlineDestMap.forEach` body
(main.ts lines 155-178). -/
def updBest (loc : ScrollLoc) (acc : Acc) (e : Entry) : Acc :=
  if isAboveOrAt loc e then
    if acc.page < (e.pageIndex : Int) then
      ⟨some e, (e.pageIndex : Int), e.top⟩
    else if (e.pageIndex : Int) == acc.page && topGT e.top acc.top then
      ⟨some e, acc.page, e.top⟩
    else acc
  else acc

/-- The whole scan of the `updateviewarea` handler: fold `updBest` over
the index in insertion order (a JS `Map` iterates in insertion order) and
return `bestMatchElement`'s entry. -/
def resolveScroll (idx : List Entry) (loc : ScrollLoc) : Option Entry :=
  (idx.foldl (updBest loc) ⟨none, -1, none⟩).best

/-- The qualification rule exactly as the specification words it: the
candidate's page index is strictly less than the current page, or it
equals the current page and the entry's offset is at or above (>=) the
current scroll offset. -/
def qualifiesSpec (loc : ScrollLoc) (e : Entry) : Prop :=
  e.pageIndex < loc.pageIndex ∨
    (e.pageIndex = loc.pageIndex ∧ ∃ t, e.top = some t ∧ loc.y ≤ t)

/-- The resolver's preference order on entries, null offsets ranking below
every present offset (the code's `?? -Infinity`): greater page index
first, then greater offset. -/
def keyLE (e' e : Entry) : Prop :=
  e'.pageIndex < e.pageIndex ∨
    (e'.pageIndex = e.pageIndex ∧ topLE e'.top e.top = true)

theorem isAboveOrAt_iff (loc : ScrollLoc) (e : Entry) :
    isAboveOrAt loc e = true ↔ qualifiesSpec loc e := by
  unfold isAboveOrAt qualifiesSpec
  cases h : e.top with
  | none =>
      simp [h]
  | some t =>
      simp [h]

theorem topLE_refl (a : Option Int) : topLE a a = true := by
  cases a <;> simp [topLE]

theorem topLE_of_not_topGT {a b : Option Int} (h : topGT a b = false) :
    topLE a b = true := by
  cases a <;> cases b <;> simp_all [topGT, topLE]

theorem topLE_of_topGT {a b : Option Int} (h : topGT a b = true) :
    topLE b a = true := by
  cases a <;> cases b <;> simp_all [topGT, topLE]
  omega

theorem topLE_trans_topGT {a b c : Option Int} (h1 : topLE a b = true)
    (h2 : topGT c b = true) : topLE a c = true := by
  cases a <;> cases b <;> cases c <;> simp_all [topGT, topLE]
  omega

/-- Loop invariant of the handler's scan: either no qualifying entry has
been seen and the accumulator still holds the sentinels, or the
accumulator holds a qualifying seen entry that dominates every qualifying
seen entry in the preference order. -/
def ResolveInv (loc : ScrollLoc) (seen : List Entry) (acc : Acc) : Prop :=
  match acc.best with
  | none =>
      acc.page = -1 ∧ acc.top = none ∧
        ∀ e ∈ seen, isAboveOrAt loc e = false
  | some b =>
      b ∈ seen ∧ isAboveOrAt loc b = true ∧
        acc.page = (b.pageIndex : Int) ∧ acc.top = b.top ∧
        ∀ e ∈ seen, isAboveOrAt loc e = true → keyLE e b

theorem updBest_inv {loc : ScrollLoc} {seen : List Entry} {acc : Acc}
    (h : ResolveInv loc seen acc) (e : Entry) :
    ResolveInv loc (seen ++ [e]) (updBest loc acc e) := by
  unfold updBest
  by_cases hq : isAboveOrAt loc e = true
  · simp only [hq, if_true]
    cases hb : acc.best with
    | none =>
        unfold ResolveInv at h
        rw [hb] at h
        obtain ⟨hpage, _, hall⟩ := h
        have hlt : acc.page < (e.pageIndex : Int) := by
          rw [hpage]; omega
        simp only [hlt, if_true]
        unfold ResolveInv
        refine ⟨by simp, hq, rfl, rfl, ?_⟩
        intro x hx _
        rcases List.mem_append.mp hx with hx1 | hx2
        · exact absurd (hall x hx1) (by simp_all)
        · have hxe : x = e := by simpa using hx2
          subst hxe
          right
          exact ⟨rfl, topLE_refl _⟩
    | some b =>
        unfold ResolveInv at h
        rw [hb] at h
        obtain ⟨hmem, hbq, hpage, htop, hall⟩ := h
        by_cases hlt : acc.page < (e.pageIndex : Int)
        · simp only [hlt, if_true]
          unfold ResolveInv
          refine ⟨by simp, hq, rfl, rfl, ?_⟩
          intro x hx hxq
          rcases List.mem_append.mp hx with hx1 | hx2
          · have hkb := hall x hx1 hxq
            unfold keyLE at hkb ⊢
            left
            rw [hpage] at hlt
            rcases hkb with hk | ⟨hk, _⟩ <;> omega
          · have hxe : x = e := by simpa using hx2
            subst hxe
            right
            exact ⟨rfl, topLE_refl _⟩
        · simp only [hlt, if_false]
          by_cases hsame : ((e.pageIndex : Int) == acc.page && topGT e.top acc.top) = true
          · simp only [hsame, if_true]
            have heq : (e.pageIndex : Int) = acc.page := by
              have := (Bool.and_eq_true _ _).mp hsame
              exact_mod_cast eq_of_beq this.1
            have hgt : topGT e.top acc.top = true :=
              ((Bool.and_eq_true _ _).mp hsame).2
            unfold ResolveInv
            have hpe : acc.page = (e.pageIndex : Int) := heq.symm
            refine ⟨by simp, hq, hpe, rfl, ?_⟩
            intro x hx hxq
            rcases List.mem_append.mp hx with hx1 | hx2
            · have hkb := hall x hx1 hxq
              unfold keyLE at hkb ⊢
              have hpageEq : b.pageIndex = e.pageIndex := by
                rw [hpage] at heq
                exact_mod_cast heq.symm
              rcases hkb with hk | ⟨hk, hk2⟩
              · left; omega
              · right
                refine ⟨by omega, ?_⟩
                rw [htop] at hgt
                exact topLE_trans_topGT hk2 hgt
            · have hxe : x = e := by simpa using hx2
              subst hxe
              right
              exact ⟨rfl, topLE_refl _⟩
          · rw [if_neg hsame]
            unfold ResolveInv
            rw [hb]
            refine ⟨List.mem_append_left _ hmem, hbq, hpage, htop, ?_⟩
            intro x hx hxq
            rcases List.mem_append.mp hx with hx1 | hx2
            · exact hall x hx1 hxq
            · have hxe : x = e := by simpa using hx2
              subst hxe
              unfold keyLE
              rw [Bool.and_eq_true] at hsame
              push_neg at hlt
              by_cases hpg : (x.pageIndex : Int) = acc.page
              · right
                constructor
                · rw [hpage] at hpg
                  exact_mod_cast hpg
                · have hngt : topGT x.top acc.top = false := by
                    rcases Bool.eq_false_or_eq_true (topGT x.top acc.top) with ht | hf
                    · exact absurd ⟨by simpa using hpg, ht⟩ hsame
                    · exact hf
                  rw [htop] at hngt
                  exact topLE_of_not_topGT hngt
              · left
                rw [hpage] at hlt hpg
                omega
  · simp only [Bool.not_eq_true] at hq
    simp only [hq, Bool.false_eq_true, if_false]
    unfold ResolveInv at h ⊢
    cases hb : acc.best with
    | none =>
        rw [hb] at h
        obtain ⟨h1, h2, h3⟩ := h
        refine ⟨h1, h2, ?_⟩
        intro x hx
        rcases List.mem_append.mp hx with hx1 | hx2
        · exact h3 x hx1
        · have hxe : x = e := by simpa using hx2
          subst hxe; exact hq
    | some b =>
        rw [hb] at h
        obtain ⟨hmem, hbq, hpage, htop, hall⟩ := h
        refine ⟨List.mem_append_left _ hmem, hbq, hpage, htop, ?_⟩
        intro x hx hxq
        rcases List.mem_append.mp hx with hx1 | hx2
        · exact hall x hx1 hxq
        · have hxe : x = e := by simpa using hx2
          subst hxe
          rw [hq] at hxq
          exact absurd hxq (by simp)

theorem foldl_updBest_inv (loc : ScrollLoc) :
    ∀ (l seen : List Entry) (acc : Acc), ResolveInv loc seen acc →
      ResolveInv loc (seen ++ l) (l.foldl (updBest loc) acc) := by
  intro l
  induction l with
  | nil => intro seen acc h; simpa using h
  | cons e rest ih =>
      intro seen acc h
      have step := updBest_inv h e
      have := ih (seen ++ [e]) (updBest loc acc e) step
      simpa [List.append_assoc] using this

theorem resolveScroll_inv (idx : List Entry) (loc : ScrollLoc) :
    ResolveInv loc idx (idx.foldl (updBest loc) ⟨none, -1, none⟩) := by
  have base : ResolveInv loc [] (⟨none, -1, none⟩ : Acc) := by
    unfold ResolveInv
    exact ⟨rfl, rfl, by simp⟩
  simpa using foldl_updBest_inv loc idx [] _ base

theorem resolveScroll_eq_none_iff (idx : List Entry) (loc : ScrollLoc) :
    resolveScroll idx loc = none ↔ ∀ e ∈ idx, isAboveOrAt loc e = false := by
  have hinv := resolveScroll_inv idx loc
  unfold resolveScroll
  constructor
  · intro hnone
    unfold ResolveInv at hinv
    rw [hnone] at hinv
    exact hinv.2.2
  · intro hall
    cases hb : (idx.foldl (updBest loc) ⟨none, -1, none⟩).best with
    | none => rfl
    | some b =>
        unfold ResolveInv at hinv
        rw [hb] at hinv
        exact absurd hinv.2.1 (by simp [hall b hinv.1])

theorem resolveScroll_eq_some {idx : List Entry} {loc : ScrollLoc} {b : Entry}
    (h : resolveScroll idx loc = some b) :
    b ∈ idx ∧ isAboveOrAt loc b = true ∧
      ∀ e ∈ idx, isAboveOrAt loc e = true → keyLE e b := by
  have hinv := resolveScroll_inv idx loc
  unfold resolveScroll at h
  unfold ResolveInv at hinv
  rw [h] at hinv
  exact ⟨hinv.1, hinv.2.1, hinv.2.2.2.2⟩

/-- The highlight state of the handler: `lastOutlineHighlight` and the set
of element ids currently carrying the `active` CSS class. -/
structure SyncState where
  lastHighlight : Option Nat
  active : Finset Nat
deriving DecidableEq

/-- The highlight update of the `updateviewarea` handler
(main.ts lines 181-193): if a best match exists and differs from
`lastOutlineHighlight`, move the `active` class to it and remember it; if
no best match exists and something was highlighted, clear the highlight;
otherwise do nothing. -/
def scrollStep (idx : List Entry) (loc : ScrollLoc) (s : SyncState) : SyncState :=
  match resolveScroll idx loc with
  | some b =>
      if s.lastHighlight ≠ some b.elem then
        { lastHighlight := some b.elem,
          active := insert b.elem
            (match s.lastHighlight with
             | some a => s.active.erase a
             | none => s.active) }
      else s
  | none =>
      match s.lastHighlight with
      | some a => { lastHighlight := none, active := s.active.erase a }
      | none => s

/-- The optimistic highlight performed by the outline entry click listener
(main.ts lines 303-305): remove the `active` class from the previous
highlight, add it to the clicked element, remember the clicked element. -/
def clickStep (s : SyncState) (elem : Nat) : SyncState :=
  { lastHighlight := some elem,
    active := insert elem
      (match s.lastHighlight with
       | some a => s.active.erase a
       | none => s.active) }

/-- Coherence of the highlight state: an element carries the `active`
class exactly when it is the remembered `lastOutlineHighlight`; in
particular at most one element is active. -/
def ActiveInv (s : SyncState) : Prop :=
  ∀ x, x ∈ s.active ↔ s.lastHighlight = some x

theorem activeInv_active_none {s : SyncState} (h : ActiveInv s)
    (hl : s.lastHighlight = none) : s.active = ∅ := by
  ext x
  simp [h x, hl]

theorem activeInv_active_some {s : SyncState} (h : ActiveInv s) {a : Nat}
    (hl : s.lastHighlight = some a) : s.active = {a} := by
  ext x
  simp only [h x, hl, Finset.mem_singleton, Option.some.injEq]
  exact ⟨fun hx => hx.symm, fun hx => hx.symm⟩

theorem activeInv_of_move {s : SyncState} (h : ActiveInv s) (elem : Nat) :
    ActiveInv ⟨some elem,
      insert elem
        (match s.lastHighlight with
         | some a => s.active.erase a
         | none => s.active)⟩ := by
  intro x
  cases hl : s.lastHighlight with
  | none =>
      have := activeInv_active_none h hl
      simp [this, eq_comm]
  | some a =>
      have := activeInv_active_some h hl
      simp only [this, Finset.erase_singleton]
      simp [eq_comm]

theorem activeInv_card_le_one {s : SyncState} (h : ActiveInv s) :
    s.active.card ≤ 1 := by
  cases hl : s.lastHighlight with
  | none => simp [activeInv_active_none h hl]
  | some a => simp [activeInv_active_some h hl]

theorem scrollStep_lastHighlight (idx : List Entry) (loc : ScrollLoc)
    (s : SyncState) :
    (scrollStep idx loc s).lastHighlight =
      (resolveScroll idx loc).map Entry.elem := by
  unfold scrollStep
  cases hr : resolveScroll idx loc with
  | none =>
      cases hl : s.lastHighlight with
      | none => simp [hl]
      | some a => simp [hl]
  | some b =>
      by_cases hL : s.lastHighlight = some b.elem
      · simp [hL]
      · simp [hL]

theorem scrollStep_activeInv {idx : List Entry} {loc : ScrollLoc}
    {s : SyncState} (h : ActiveInv s) : ActiveInv (scrollStep idx loc s) := by
  unfold scrollStep
  cases hr : resolveScroll idx loc with
  | none =>
      cases hl : s.lastHighlight with
      | none => simp only [hl]; exact h
      | some a =>
          intro x
          have hs := activeInv_active_some h hl
          simp [hl, hs, Finset.erase_singleton]
  | some b =>
      by_cases hL : s.lastHighlight = some b.elem
      · simp only [ne_eq, hL, not_true_eq_false, if_false]
        exact h
      · simp only [ne_eq, hL, not_false_eq_true, if_true]
        exact activeInv_of_move h b.elem

theorem clickStep_activeInv {s : SyncState} (h : ActiveInv s) (elem : Nat) :
    ActiveInv (clickStep s elem) :=
  activeInv_of_move h elem

/-- The index of the worked example: entries at (page 0, offset 100),
(page 0, offset 50) and (page 2, offset 0), in insertion order. -/
def exampleIdx : List Entry :=
  [⟨0, 0, some 100⟩, ⟨1, 0, some 50⟩, ⟨2, 2, some 0⟩]

/-- C1: for every index and scroll location, the resolver selects exactly
the entry determined by the nearest-at-or-above rule: it returns no match
precisely when no entry qualifies (page strictly before the current page,
or same page with offset at or above the current offset), and any
returned entry is a qualifying member of the index that every qualifying
entry is at or below in the (page index, then offset) preference order. -/
theorem scroll_resolver_nearest_at_or_above (idx : List Entry) (loc : ScrollLoc) :
    (resolveScroll idx loc = none ↔ ∀ e ∈ idx, ¬ qualifiesSpec loc e) ∧
    (∀ b, resolveScroll idx loc = some b →
      b ∈ idx ∧ qualifiesSpec loc b ∧
        ∀ e ∈ idx, qualifiesSpec loc e → keyLE e b) := by
  constructor
  · rw [resolveScroll_eq_none_iff]
    constructor
    · intro hall e he hq
      have htrue := (isAboveOrAt_iff loc e).mpr hq
      rw [hall e he] at htrue
      exact absurd htrue (by simp)
    · intro hall e he
      rcases Bool.eq_false_or_eq_true (isAboveOrAt loc e) with ht | hf
      · exact absurd ((isAboveOrAt_iff loc e).mp ht) (hall e he)
      · exact hf
  · intro b hb
    obtain ⟨hmem, hq, hdom⟩ := resolveScroll_eq_some hb
    refine ⟨hmem, (isAboveOrAt_iff loc b).mp hq, ?_⟩
    intro e he hqe
    exact hdom e he ((isAboveOrAt_iff loc e).mpr hqe)

/-- Closed consequence of `scroll_resolver_nearest_at_or_above` at a
concrete index and location, discharging the resolver equation by
computation. -/
theorem scroll_resolver_nearest_at_or_above_witness :
    (⟨0, 0, some 100⟩ : Entry) ∈ exampleIdx ∧
      qualifiesSpec ⟨1, 0⟩ ⟨0, 0, some 100⟩ ∧
      ∀ e ∈ exampleIdx, qualifiesSpec ⟨1, 0⟩ e → keyLE e ⟨0, 0, some 100⟩ :=
  (scroll_resolver_nearest_at_or_above exampleIdx ⟨1, 0⟩).2
    ⟨0, 0, some 100⟩ (by decide)

/-- C2 as stated is false on the code: at scroll location
(page 0, offset 70) the resolver does not select the (page 0, offset 50)
entry; only the (page 0, offset 100) entry qualifies there (100 >= 70,
50 < 70) and it is selected. -/
theorem example_locations_counterexample :
    resolveScroll exampleIdx ⟨0, 70⟩ ≠ some ⟨1, 0, some 50⟩ ∧
      resolveScroll exampleIdx ⟨0, 70⟩ = some ⟨0, 0, some 100⟩ := by
  decide

/-- C2 amended: on the example index, the scroll locations
(page 0, offset 70), (page 1, offset 0) and (page 2, offset 10) all
resolve to the (page 0, offset 100) entry: at (0, 70) and (2, 10) the
lower entries of the current page do not qualify (their offsets are below
the current offset), and among the qualifying page-0 entries the greatest
offset wins. -/
theorem example_locations_resolved :
    resolveScroll exampleIdx ⟨0, 70⟩ = some ⟨0, 0, some 100⟩ ∧
      resolveScroll exampleIdx ⟨1, 0⟩ = some ⟨0, 0, some 100⟩ ∧
      resolveScroll exampleIdx ⟨2, 10⟩ = some ⟨0, 0, some 100⟩ := by
  decide

theorem scrollStep_stable {idx : List Entry} {loc : ScrollLoc}
    {s : SyncState}
    (h : s.lastHighlight = (resolveScroll idx loc).map Entry.elem) :
    scrollStep idx loc s = s := by
  unfold scrollStep
  cases hr : resolveScroll idx loc with
  | none =>
      rw [hr] at h
      simp only [Option.map_none'] at h
      rw [h]
  | some b =>
      rw [hr] at h
      simp only [Option.map_some'] at h
      rw [h]
      simp

/-- C3: the scroll handler is idempotent; a second invocation at the same
location leaves the highlight state exactly where the first left it. -/
theorem scrollStep_idempotent (idx : List Entry) (loc : ScrollLoc)
    (s : SyncState) :
    scrollStep idx loc (scrollStep idx loc s) = scrollStep idx loc s :=
  scrollStep_stable (scrollStep_lastHighlight idx loc s)

/-- C4: coherence of the highlight state (the `active` class sits on
exactly the remembered element, hence on at most one element) is preserved
by the scroll recomputation and by the outline-entry click, and after a
scroll recomputation the remembered highlight is the resolver's best
match, or `none` when nothing qualifies. -/
theorem highlight_invariant_preserved (idx : List Entry) (loc : ScrollLoc)
    (s : SyncState) (elem : Nat) (h : ActiveInv s) :
    ActiveInv (scrollStep idx loc s) ∧ ActiveInv (clickStep s elem) ∧
      (scrollStep idx loc s).lastHighlight =
        (resolveScroll idx loc).map Entry.elem ∧
      (scrollStep idx loc s).active.card ≤ 1 ∧
      (clickStep s elem).active.card ≤ 1 :=
  ⟨scrollStep_activeInv h, clickStep_activeInv h elem,
    scrollStep_lastHighlight idx loc s,
    activeInv_card_le_one (scrollStep_activeInv h),
    activeInv_card_le_one (clickStep_activeInv h elem)⟩

/-- Closed consequence of `highlight_invariant_preserved` at a concrete
index, location and state, the coherence hypothesis discharged directly. -/
theorem highlight_invariant_preserved_witness :
    ActiveInv (scrollStep exampleIdx ⟨1, 0⟩ ⟨some 9, {9}⟩) ∧
      ActiveInv (clickStep ⟨some 9, {9}⟩ 4) ∧
      (scrollStep exampleIdx ⟨1, 0⟩ ⟨some 9, {9}⟩).lastHighlight =
        (resolveScroll exampleIdx ⟨1, 0⟩).map Entry.elem ∧
      (scrollStep exampleIdx ⟨1, 0⟩ ⟨some 9, {9}⟩).active.card ≤ 1 ∧
      (clickStep ⟨some 9, {9}⟩ 4).active.card ≤ 1 :=
  highlight_invariant_preserved exampleIdx ⟨1, 0⟩ ⟨some 9, {9}⟩ 4
    (by intro x; simp [eq_comm])

/-- C5: at a scroll location where no index entry qualifies, the resolver
reports no match, the handler leaves no remembered highlight, the
previously active element (if any) loses its `active` class, and under the
coherence invariant no element at all stays active. -/
theorem no_match_clears_highlight (idx : List Entry) (loc : ScrollLoc)
    (s : SyncState) (hq : ∀ e ∈ idx, isAboveOrAt loc e = false) :
    resolveScroll idx loc = none ∧
      (scrollStep idx loc s).lastHighlight = none ∧
      (∀ a, s.lastHighlight = some a → a ∉ (scrollStep idx loc s).active) ∧
      (ActiveInv s → (scrollStep idx loc s).active = ∅) := by
  have hr : resolveScroll idx loc = none :=
    (resolveScroll_eq_none_iff idx loc).mpr hq
  refine ⟨hr, by rw [scrollStep_lastHighlight, hr]; rfl, ?_, ?_⟩
  · intro a ha
    unfold scrollStep
    rw [hr, ha]
    simp
  · intro h
    unfold scrollStep
    rw [hr]
    cases hl : s.lastHighlight with
    | none => exact activeInv_active_none h hl
    | some a =>
        have := activeInv_active_some h hl
        simp [this, Finset.erase_singleton]

/-- Closed consequence of `no_match_clears_highlight` at the
specification's own boundary example: one entry at (page 0, offset 100)
and a scroll location (page 0, offset 200) above it. -/
theorem no_match_clears_highlight_witness :
    resolveScroll [⟨0, 0, some 100⟩] ⟨0, 200⟩ = none ∧
      (scrollStep [⟨0, 0, some 100⟩] ⟨0, 200⟩ ⟨some 0, {0}⟩).lastHighlight = none ∧
      (∀ a, (⟨some 0, {0}⟩ : SyncState).lastHighlight = some a →
        a ∉ (scrollStep [⟨0, 0, some 100⟩] ⟨0, 200⟩ ⟨some 0, {0}⟩).active) ∧
      (ActiveInv ⟨some 0, {0}⟩ →
        (scrollStep [⟨0, 0, some 100⟩] ⟨0, 200⟩ ⟨some 0, {0}⟩).active = ∅) :=
  no_match_clears_highlight [⟨0, 0, some 100⟩] ⟨0, 200⟩ ⟨some 0, {0}⟩
    (by decide)

/-- C10: an index entry whose stored offset is `null` never qualifies at a
scroll location on its own page, and whenever the resolver selects such an
entry the current page index is strictly greater than the entry's page
index. -/
theorem null_top_only_selected_from_later_page (e : Entry)
    (h : e.top = none) :
    (∀ loc : ScrollLoc, loc.pageIndex = e.pageIndex →
      isAboveOrAt loc e = false) ∧
    (∀ (idx : List Entry) (loc : ScrollLoc),
      resolveScroll idx loc = some e → e.pageIndex < loc.pageIndex) := by
  constructor
  · intro loc hp
    unfold isAboveOrAt
    rw [h, hp]
    simp
  · intro idx loc hr
    have hq := (resolveScroll_eq_some hr).2.1
    unfold isAboveOrAt at hq
    rw [h] at hq
    simp at hq
    exact hq

/-- Closed consequence of `null_top_only_selected_from_later_page` for the
entry (page 0, top null). -/
theorem null_top_only_selected_from_later_page_witness :
    (∀ loc : ScrollLoc, loc.pageIndex = (⟨5, 0, none⟩ : Entry).pageIndex →
      isAboveOrAt loc ⟨5, 0, none⟩ = false) ∧
    (∀ (idx : List Entry) (loc : ScrollLoc),
      resolveScroll idx loc = some ⟨5, 0, none⟩ →
        (⟨5, 0, none⟩ : Entry).pageIndex < loc.pageIndex) :=
  null_top_only_selected_from_later_page ⟨5, 0, none⟩ rfl

/-- An explicit destination array as `renderOutlineLevel` inspects it:
slot 0 (`first`) is the page reference object's `num` when the slot holds
such an object, slot 1's `name` is the fit-mode name when slot 1 is an
object carrying one, and `slot2` / `slot3` are the (possibly null)
numeric coordinates at positions 2 and 3. -/
structure ExplicitDest where
  first : Option Nat
  fitName : Option String
  slot2 : Option Int
  slot3 : Option Int
deriving DecidableEq

/-- An outline item's `dest` field: a named destination string or an
explicit destination array. -/
inductive DestSpec where
  | named (s : String)
  | explicitArr (d : ExplicitDest)
deriving DecidableEq

/-- The document handle operations the builder uses: `getDestination`
(may reject, may produce null or a non-array — both folded into `none`)
and `getPageIndex` (may reject). -/
structure Doc where
  getDestination : String → Except Unit (Option ExplicitDest)
  getPageIndex : Nat → Except Unit Nat

/-- An outline tree node as fetched from the document: title, optional
destination, optional external URL, and children (style flags are
irrelevant to the index and omitted). -/
inductive OutlineNode where
  | mk (title : String) (dest : Option DestSpec) (url : Option String)
      (items : List OutlineNode)

/-- The fit-mode offset extraction of `renderOutlineLevel`
(main.ts lines 258-280), in source order: `XYZ` stores the array's top
slot as is (possibly null); `FitV`/`FitBV` store 0; `FitH`/`FitBH` store
the array's slot 2 (possibly null); every other shape, a missing name
included, stores 0 (top of page). -/
def destinationTopFor (ed : ExplicitDest) : Option Int :=
  match ed.fitName with
  | some n =>
      if n = "XYZ" then ed.slot3
      else if n = "FitV" ∨ n = "FitBV" then some 0
      else if n = "FitH" ∨ n = "FitBH" then ed.slot2
      else some 0
  | none => some 0

/-- Resolution of `item.dest` to an explicit destination: a string goes
through `getDestination`, an array is used directly
(main.ts lines 247-249). -/
def resolveExplicitDest (doc : Doc) : DestSpec → Except Unit (Option ExplicitDest)
  | .named s => doc.getDestination s
  | .explicitArr d => .ok (some d)

/-- The whole per-entry resolution of `renderOutlineLevel`
(main.ts lines 244-290): any rejection is caught, a null/ill-shaped
destination or page reference yields no index record, and a successful
resolution yields the page index paired with the fit-mode offset. -/
def resolveEntryDest (doc : Doc) (d : DestSpec) : Option (Nat × Option Int) :=
  match resolveExplicitDest doc d with
  | .error _ => none
  | .ok none => none
  | .ok (some ed) =>
      match ed.first with
      | none => none
      | some pref =>
          match doc.getPageIndex pref with
          | .error _ => none
          | .ok pidx => some (pidx, destinationTopFor ed)

/-- One rendered outline UI node: its displayed title, the index record
stored for it in `outlineDestMap` (if any), whether a navigation click
listener was attached, and whether it renders as an external link. -/
structure RenderedNode where
  title : String
  indexEntry : Option (Nat × Option Int)
  clickable : Bool
  externalLink : Bool
deriving DecidableEq

/-- The displayed title: `item.title || 'Untitled'`. -/
def displayTitle (t : String) : String := if t = "" then "Untitled" else t

/-- The per-item rendering of `renderOutlineLevel`: an item with a
destination is indexed and clickable exactly when resolution succeeds; an
item without a destination is an external link when it carries a URL and
inert otherwise (main.ts lines 231-324). -/
def renderedNodeFor (doc : Doc) (title : String) (dest : Option DestSpec)
    (url : Option String) : RenderedNode :=
  match dest with
  | some d =>
      let r := resolveEntryDest doc d
      ⟨displayTitle title, r, r.isSome, false⟩
  | none => ⟨displayTitle title, none, false, url.isSome⟩

/-- `renderOutlineLevel` (main.ts lines 228-334): depth-first,
order-preserving traversal, rendering one node per item and recursing
into the children of every item. -/
def renderOutlineLevel (doc : Doc) : List OutlineNode → List RenderedNode
  | [] => []
  | .mk t d u children :: rest =>
      renderedNodeFor doc t d u ::
        (renderOutlineLevel doc children ++ renderOutlineLevel doc rest)

/-- Number of nodes of an outline tree list. -/
def sizeNodes : List OutlineNode → Nat
  | [] => 0
  | .mk _ _ _ children :: rest => 1 + sizeNodes children + sizeNodes rest

theorem renderOutlineLevel_length (doc : Doc) :
    ∀ l : List OutlineNode, (renderOutlineLevel doc l).length = sizeNodes l := by
  intro l
  induction l using renderOutlineLevel.induct doc with
  | case1 => simp [renderOutlineLevel, sizeNodes]
  | case2 t d u children rest ih1 ih2 =>
      simp [renderOutlineLevel, sizeNodes, ih1, ih2]
      omega

/-- The contents of `outlineDestMap` after rendering: the index records of
the rendered nodes, in traversal order. -/
def outlineIndexOf (doc : Doc) (items : List OutlineNode) : List (Nat × Option Int) :=
  (renderOutlineLevel doc items).filterMap (fun n => n.indexEntry)

/-- C6: the builder renders exactly one UI node per outline entry —
for every document handle (hence regardless of which destinations
resolve) the rendered list has one node per tree node, and each level is
rendered as the item's own node followed by the recursive rendering of
its children and of its siblings. -/
theorem outline_renders_all_entries (doc : Doc) :
    (∀ l : List OutlineNode,
      (renderOutlineLevel doc l).length = sizeNodes l) ∧
    (∀ (t : String) (d : Option DestSpec) (u : Option String)
        (children rest : List OutlineNode),
      renderOutlineLevel doc (.mk t d u children :: rest) =
        renderedNodeFor doc t d u ::
          (renderOutlineLevel doc children ++ renderOutlineLevel doc rest)) := by
  refine ⟨renderOutlineLevel_length doc, ?_⟩
  intro t d u children rest
  simp [renderOutlineLevel]

/-- C8: a failing destination resolution degrades only its own entry: the
entry is still rendered, carries no index record, is not clickable, and
the children and siblings are rendered exactly as they would be on their
own; the index collects only their records and the total node count is
unchanged. -/
theorem resolution_error_isolated (doc : Doc) (t : String) (d : DestSpec)
    (u : Option String) (children rest : List OutlineNode)
    (hfail : resolveEntryDest doc d = none) :
    renderOutlineLevel doc (.mk t (some d) u children :: rest) =
      ⟨displayTitle t, none, false, false⟩ ::
        (renderOutlineLevel doc children ++ renderOutlineLevel doc rest) ∧
    outlineIndexOf doc (.mk t (some d) u children :: rest) =
      outlineIndexOf doc children ++ outlineIndexOf doc rest ∧
    (renderOutlineLevel doc (.mk t (some d) u children :: rest)).length =
      sizeNodes (.mk t (some d) u children :: rest) := by
  have hrender : renderOutlineLevel doc (.mk t (some d) u children :: rest) =
      ⟨displayTitle t, none, false, false⟩ ::
        (renderOutlineLevel doc children ++ renderOutlineLevel doc rest) := by
    simp [renderOutlineLevel, renderedNodeFor, hfail]
  refine ⟨hrender, ?_, renderOutlineLevel_length doc _⟩
  unfold outlineIndexOf
  rw [hrender]
  simp

/-- A document handle on which every resolution rejects. -/
def docFail : Doc := ⟨fun _ => .error (), fun _ => .error ()⟩

/-- Closed consequence of `resolution_error_isolated` for a named
destination the document cannot resolve, with one child and one sibling. -/
theorem resolution_error_isolated_witness :
    renderOutlineLevel docFail
        [.mk "bad" (some (.named "nope")) none [.mk "child" none none []],
         .mk "sib" none none []] =
      ⟨"bad", none, false, false⟩ ::
        (renderOutlineLevel docFail [.mk "child" none none []] ++
          renderOutlineLevel docFail [.mk "sib" none none []]) ∧
    outlineIndexOf docFail
        [.mk "bad" (some (.named "nope")) none [.mk "child" none none []],
         .mk "sib" none none []] =
      outlineIndexOf docFail [.mk "child" none none []] ++
        outlineIndexOf docFail [.mk "sib" none none []] ∧
    (renderOutlineLevel docFail
        [.mk "bad" (some (.named "nope")) none [.mk "child" none none []],
         .mk "sib" none none []]).length =
      sizeNodes
        [.mk "bad" (some (.named "nope")) none [.mk "child" none none []],
         .mk "sib" none none []] :=
  resolution_error_isolated docFail "bad" (.named "nope") none
    [.mk "child" none none []] [.mk "sib" none none []]
    (by simp [resolveEntryDest, resolveExplicitDest, docFail])

/-- The vertical offset the original claim prescribes: `XYZ` yields its
explicit top with an absent top treated as top-of-page (0); `FitH`/`FitBH`
yield their top-edge coordinate; every other mode defaults to
top-of-page. -/
def claimedOffsetSpec (ed : ExplicitDest) : Option Int :=
  match ed.fitName with
  | some n =>
      if n = "XYZ" then some (ed.slot3.getD 0)
      else if n = "FitH" ∨ n = "FitBH" then ed.slot2
      else some 0
  | none => some 0

/-- The vertical offset rule as amended: `XYZ` records its top slot as is,
an absent top staying absent (null) rather than becoming top-of-page;
`FitH`/`FitBH` record their top-edge slot; every other mode records
top-of-page (0). -/
def amendedOffsetSpec (ed : ExplicitDest) : Option Int :=
  match ed.fitName with
  | some n =>
      if n = "XYZ" then ed.slot3
      else if n = "FitH" ∨ n = "FitBH" then ed.slot2
      else some 0
  | none => some 0

theorem destinationTopFor_eq_amended (ed : ExplicitDest) :
    destinationTopFor ed = amendedOffsetSpec ed := by
  unfold destinationTopFor amendedOffsetSpec
  cases h : ed.fitName with
  | none => rfl
  | some n =>
      by_cases h1 : n = "XYZ"
      · simp [h1]
      · by_cases h2 : n = "FitV" ∨ n = "FitBV"
        · have h3 : ¬(n = "FitH" ∨ n = "FitBH") := by
            rcases h2 with h2 | h2 <;> subst h2 <;> decide
          simp [h1, h2, h3]
        · simp [h1, h2]

/-- An `XYZ` destination whose top slot is null, on a resolvable page. -/
def xyzNoTop : ExplicitDest := ⟨some 0, some "XYZ", none, none⟩

/-- A document handle that resolves every page reference to page 0. -/
def docPageZero : Doc := ⟨fun _ => .ok none, fun _ => .ok 0⟩

/-- C7 as stated is false on the code: for an `XYZ` destination with an
absent top coordinate the index records a null offset, not the
top-of-page offset 0 the claim prescribes. -/
theorem fit_mode_offset_counterexample :
    resolveEntryDest docPageZero (.explicitArr xyzNoTop) = some (0, none) ∧
      claimedOffsetSpec xyzNoTop = some 0 ∧
      resolveEntryDest docPageZero (.explicitArr xyzNoTop) ≠
        some (0, claimedOffsetSpec xyzNoTop) := by
  refine ⟨?_, rfl, ?_⟩
  · simp [resolveEntryDest, resolveExplicitDest, docPageZero, xyzNoTop,
      destinationTopFor]
  · intro hcontra
    rw [show claimedOffsetSpec xyzNoTop = some 0 from rfl] at hcontra
    have : resolveEntryDest docPageZero (.explicitArr xyzNoTop) = some (0, none) := by
      simp [resolveEntryDest, resolveExplicitDest, docPageZero, xyzNoTop,
        destinationTopFor]
    rw [this] at hcontra
    simp at hcontra

/-- C7 amended: for every entry whose destination resolves, the offset
recorded in the index is determined by the fit-mode as the amended rule
says: `XYZ` records its explicit top slot, an absent top staying null
(not treated as top-of-page); `FitH`/`FitBH` record their top-edge
coordinate; `Fit`, `FitB`, `FitV`, `FitBV` and unknown shapes record
top-of-page (0). -/
theorem fit_mode_offset_extraction (doc : Doc) (d : DestSpec)
    (ed : ExplicitDest) (pref pidx : Nat)
    (hres : resolveExplicitDest doc d = .ok (some ed))
    (hfirst : ed.first = some pref)
    (hpage : doc.getPageIndex pref = .ok pidx) :
    resolveEntryDest doc d = some (pidx, amendedOffsetSpec ed) ∧
      destinationTopFor ed = amendedOffsetSpec ed := by
  refine ⟨?_, destinationTopFor_eq_amended ed⟩
  simp [resolveEntryDest, hres, hfirst, hpage, destinationTopFor_eq_amended]

/-- Closed consequence of `fit_mode_offset_extraction` for a `FitH`
destination with top edge 42 resolving to page 3. -/
theorem fit_mode_offset_extraction_witness :
    resolveEntryDest ⟨fun _ => .ok none, fun _ => .ok 3⟩
        (.explicitArr ⟨some 1, some "FitH", some 42, none⟩) =
      some (3, amendedOffsetSpec ⟨some 1, some "FitH", some 42, none⟩) ∧
      destinationTopFor ⟨some 1, some "FitH", some 42, none⟩ =
        amendedOffsetSpec ⟨some 1, some "FitH", some 42, none⟩ :=
  fit_mode_offset_extraction ⟨fun _ => .ok none, fun _ => .ok 3⟩
    (.explicitArr ⟨some 1, some "FitH", some 42, none⟩)
    ⟨some 1, some "FitH", some 42, none⟩ 1 3 rfl rfl rfl

/-- The sidebar outline view contents after a build. -/
inductive ViewContent where
  | cleared
  | noOutlinePlaceholder
  | errorLoadingOutline
  | tree (nodes : List RenderedNode)
deriving DecidableEq

/-- The module state touched by `fetchAndRenderOutline`: the outline view,
the fetched outline data, `outlineDestMap` (`none` models the null map,
`some` a present map with its records) and `lastOutlineHighlight`. -/
structure OutlineUiState where
  view : ViewContent
  outlineData : Option (List OutlineNode)
  destMap : Option (List (Nat × Option Int))
  lastHighlight : Option Nat

/-- `fetchAndRenderOutline` (main.ts lines 201-226): clear the previous
outline state, install a fresh empty map, then either surface the fetch
error, show the placeholder for a null or empty outline, or render the
tree and populate the index. -/
def fetchAndRenderOutline (doc : Doc)
    (outlineResult : Except Unit (Option (List OutlineNode))) :
    OutlineUiState :=
  match outlineResult with
  | .error _ => ⟨.errorLoadingOutline, none, some [], none⟩
  | .ok none => ⟨.noOutlinePlaceholder, none, some [], none⟩
  | .ok (some []) => ⟨.noOutlinePlaceholder, some [], some [], none⟩
  | .ok (some items) =>
      ⟨.tree (renderOutlineLevel doc items), some items,
        some (outlineIndexOf doc items), none⟩

/-- C9 as stated is false on the code: a document with no outline does
produce the placeholder, but `outlineDestMap` afterwards is a present,
empty map — exactly equal to the map left by a built outline none of
whose entries resolved, so the index itself is merely
unpopulated-but-present, not distinguishable from a built-but-empty
index. -/
theorem empty_outline_index_counterexample :
    (fetchAndRenderOutline docFail (.ok none)).view =
        ViewContent.noOutlinePlaceholder ∧
      (fetchAndRenderOutline docFail (.ok none)).destMap = some [] ∧
      (fetchAndRenderOutline docFail
          (.ok (some [.mk "bad" (some (.named "nope")) none []]))).view ≠
        ViewContent.noOutlinePlaceholder ∧
      (fetchAndRenderOutline docFail (.ok none)).destMap =
        (fetchAndRenderOutline docFail
          (.ok (some [.mk "bad" (some (.named "nope")) none []]))).destMap := by
  refine ⟨rfl, rfl, ?_, ?_⟩
  · simp [fetchAndRenderOutline]
  · simp [fetchAndRenderOutline, outlineIndexOf, renderOutlineLevel,
      renderedNodeFor, resolveEntryDest, resolveExplicitDest, docFail]

/-- C9 amended: an absent or empty outline yields the single "no outline"
placeholder view, a cleared highlight, and an empty but present index
map; the no-outline state is distinguishable by the placeholder view (and
the stored outline data), not by the index, which equals the present
empty map a fully unresolvable outline would leave. -/
theorem empty_outline_placeholder (doc : Doc)
    (res : Except Unit (Option (List OutlineNode)))
    (h : res = .ok none ∨ res = .ok (some [])) :
    (fetchAndRenderOutline doc res).view = ViewContent.noOutlinePlaceholder ∧
      (fetchAndRenderOutline doc res).destMap = some [] ∧
      (fetchAndRenderOutline doc res).lastHighlight = none := by
  rcases h with h | h <;> subst h <;> exact ⟨rfl, rfl, rfl⟩

/-- Closed consequence of `empty_outline_placeholder` for a null
outline. -/
theorem empty_outline_placeholder_witness :
    (fetchAndRenderOutline docFail (.ok none)).view =
        ViewContent.noOutlinePlaceholder ∧
      (fetchAndRenderOutline docFail (.ok none)).destMap = some [] ∧
      (fetchAndRenderOutline docFail (.ok none)).lastHighlight = none :=
  empty_outline_placeholder docFail (.ok none) (Or.inl rfl)

end AcaReader
